import Mathlib

/-!
Verification of the TaskManager application (src/script.js) against its
natural-language specification.

The JavaScript source is shallowly embedded: the mutable `this.tasks` array
becomes an explicit `List Task` threaded through the operations, `Date.now()`
and `new Date().toISOString()` become explicit parameters, `localStorage`
becomes an `Option String` per key, and every DOM side effect is dropped
(it carries no state the claims mention).  Calls to `saveTasks()` are made
observable as an explicit `Bool` (or a write log) in each operation's result.
-/

namespace TaskManager

/-- A task object as built in `handleAddTask` (src/script.js lines 89-94):
`id` is `Date.now()` (a number, modelled as `Nat`), `text` the trimmed input,
`completed` a boolean, `createdAt` an ISO string. -/
structure Task where
  id : Nat
  text : String
  completed : Bool
  createdAt : String
deriving Repr, DecidableEq

/-- The two validation failures of `handleAddTask`: empty trimmed text
(line 78) and trimmed text longer than 200 characters (line 83). -/
inductive ValidationError where
  | empty
  | tooLong
deriving Repr, DecidableEq

/-- Model of JavaScript `String.prototype.trim` as used on line 75:
removes whitespace from both ends of the string.  (Lean's own
`String.trim` is extensionally the same but is defined through
well-founded recursion on `Substring`, which the kernel cannot evaluate,
so the claims use this explicit character-list version.) -/
def jsTrim (s : String) : String :=
  ⟨((s.data.dropWhile Char.isWhitespace).reverse.dropWhile
      Char.isWhitespace).reverse⟩

/-- Embedding of `handleAddTask` (src/script.js lines 72-106).
`input` is `this.taskInput.value`; the function trims it, rejects an empty
trim with the "empty" error, rejects a trimmed length over 200 with the
"too_long" error, and otherwise prepends (`unshift`) the new task built from
`Date.now()` (`now`) and `new Date().toISOString()` (`createdAt`).
The returned list is the resulting `this.tasks`; on an error branch the
function returns before touching the array. -/
def handleAddTask (tasks : List Task) (input : String) (now : Nat)
    (createdAt : String) : Except ValidationError Task × List Task :=
  let taskText := jsTrim input
  if taskText = "" then
    (.error .empty, tasks)
  else if taskText.length > 200 then
    (.error .tooLong, tasks)
  else
    let task : Task := { id := now, text := taskText, completed := false,
                         createdAt := createdAt }
    (.ok task, task :: tasks)

/-- Embedding of `handleToggleComplete` (src/script.js lines 109-116).
`this.tasks.find(t => t.id === taskId)` locates the first task with the id;
if found its `completed` flag is flipped in place and `saveTasks()` runs.
The `Bool` records whether the task was found (and hence whether the
save/render branch executed). -/
def handleToggleComplete : List Task → Nat → Bool × List Task
  | [], _ => (false, [])
  | t :: ts, taskId =>
    if t.id = taskId then
      (true, { t with completed := !t.completed } :: ts)
    else
      let r := handleToggleComplete ts taskId
      (r.1, t :: r.2)

/-- Embedding of `handleDeleteTask` (src/script.js lines 119-123):
`this.tasks = this.tasks.filter(t => t.id !== taskId)`. -/
def handleDeleteTask (tasks : List Task) (taskId : Nat) : List Task :=
  tasks.filter (fun t => t.id ≠ taskId)

/-- Embedding of the confirmed branch of `handleClearCompleted`
(src/script.js lines 126-132): `this.tasks = this.tasks.filter(t =>
!t.completed)` followed unconditionally by `saveTasks()`.  The `Bool` is
`true` exactly when `saveTasks()` was invoked — which the source does on
every confirmed invocation, regardless of how many tasks were removed. -/
def handleClearCompleted (tasks : List Task) : List Task × Bool :=
  (tasks.filter (fun t => !t.completed), true)

/-- Embedding of `getFilteredTasks` (src/script.js lines 155-165): a switch
on the current filter string with `"all"` and the `default` case both
returning the collection itself. -/
def getFilteredTasks (tasks : List Task) (currentFilter : String) :
    List Task :=
  if currentFilter = "completed" then tasks.filter (fun t => t.completed)
  else if currentFilter = "pending" then tasks.filter (fun t => !t.completed)
  else tasks

/-- The record returned by `calculateStats`. -/
structure Stats where
  total : Nat
  completed : Nat
  remaining : Nat
deriving Repr, DecidableEq

/-- Embedding of `calculateStats` (src/script.js lines 183-189). -/
def calculateStats (tasks : List Task) : Stats :=
  let total := tasks.length
  let completed := (tasks.filter (fun t => t.completed)).length
  let remaining := total - completed
  { total := total, completed := completed, remaining := remaining }

/-- A user-triggered mutation of the task collection.  `add` carries the
submitted input text together with the values the browser supplies at that
instant: `Date.now()` (`now`) and `new Date().toISOString()`
(`createdAt`). -/
inductive Op where
  | add (input : String) (now : Nat) (createdAt : String)
  | toggle (taskId : Nat)
  | delete (taskId : Nat)
  | clear
deriving Repr, DecidableEq

/-- Dispatch one operation to its handler, keeping the resulting
`this.tasks`. -/
def applyOp (tasks : List Task) : Op → List Task
  | .add input now createdAt => (handleAddTask tasks input now createdAt).2
  | .toggle taskId => (handleToggleComplete tasks taskId).2
  | .delete taskId => handleDeleteTask tasks taskId
  | .clear => (handleClearCompleted tasks).1

/-- The collection reached from the empty collection by a sequence of
operations. -/
def runOps (ops : List Op) : List Task := ops.foldl applyOp []

/-- The `Date.now()` values consumed by the `add` operations of a
sequence, in order. -/
def addTimes (ops : List Op) : List Nat :=
  ops.filterMap (fun o => match o with
    | .add _ now _ => some now
    | _ => none)

/-- The truthiness test JavaScript applies to `savedTheme` on line 315:
`!savedTheme` holds for `null` (no entry) and for the empty string. -/
def strFalsy : Option String → Bool
  | none => true
  | some s => s == ""

/-- The theme-relevant browser state: the `localStorage` entry under the
`"theme"` key and whether `document.documentElement` carries the
`dark-mode` class. -/
structure ThemeState where
  storedTheme : Option String
  darkClass : Bool
deriving Repr, DecidableEq

/-- Embedding of `enableDarkMode` (src/script.js lines 323-330): adds the
`dark-mode` class and writes `"dark"` under the `"theme"` key.  The second
component logs the writes to that key performed by the call. -/
def enableDarkMode (s : ThemeState) : ThemeState × List String :=
  ({ storedTheme := some "dark", darkClass := true }, ["dark"])

/-- Embedding of `disableDarkMode` (src/script.js lines 333-340). -/
def disableDarkMode (s : ThemeState) : ThemeState × List String :=
  ({ storedTheme := some "light", darkClass := false }, ["light"])

/-- Embedding of `initDarkMode` (src/script.js lines 308-320): reads the
saved theme, and applies dark mode when it is `"dark"` or when it is unset
(falsy) and the system prefers dark; otherwise applies light mode. -/
def initDarkMode (prefersDark : Bool) (s : ThemeState) :
    ThemeState × List String :=
  if (s.storedTheme == some "dark") || (strFalsy s.storedTheme && prefersDark)
  then enableDarkMode s
  else disableDarkMode s

/-- Embedding of `handleDarkModeToggle` (src/script.js lines 343-351). -/
def handleDarkModeToggle (s : ThemeState) : ThemeState × List String :=
  if s.darkClass then disableDarkMode s else enableDarkMode s

/-- `n` successive user toggles starting from `s`; the write log
accumulates in order. -/
def runToggles : ThemeState → Nat → ThemeState × List String
  | s, 0 => (s, [])
  | s, n + 1 =>
    let r := handleDarkModeToggle s
    let r2 := runToggles r.1 n
    (r2.1, r.2 ++ r2.2)

/-- A whole theme session: startup (`initDarkMode`, run once from the
constructor) followed by `n` user toggles. -/
def runThemeSession (prefersDark : Bool) (s0 : ThemeState) (n : Nat) :
    ThemeState × List String :=
  let r := initDarkMode prefersDark s0
  let r2 := runToggles r.1 n
  (r2.1, r.2 ++ r2.2)

/-! ### Helper lemmas about the toggle and filter operations -/

/-- If no task carries the id, `handleToggleComplete` finds nothing: it
returns `false` and rebuilds the list unchanged. -/
lemma toggle_of_not_mem (tasks : List Task) (i : Nat)
    (h : i ∉ tasks.map Task.id) :
    handleToggleComplete tasks i = (false, tasks) := by
  induction tasks with
  | nil => rfl
  | cons t ts ih =>
    simp only [List.map_cons, List.mem_cons] at h
    push_neg at h
    unfold handleToggleComplete
    rw [if_neg (fun he => h.1 he.symm)]
    simp [ih h.2]

/-- If some task carries the id, `handleToggleComplete` reports success. -/
lemma toggle_mem_fst (tasks : List Task) (i : Nat)
    (h : i ∈ tasks.map Task.id) :
    (handleToggleComplete tasks i).1 = true := by
  induction tasks with
  | nil => simp at h
  | cons t ts ih =>
    by_cases he : t.id = i
    · simp [handleToggleComplete, he]
    · simp only [List.map_cons, List.mem_cons] at h
      rcases h with h | h
      · exact absurd h.symm he
      · simp [handleToggleComplete, he, ih h]

/-- `handleToggleComplete` flips exactly the first task carrying the id and
returns every other task (before and after it) untouched. -/
lemma toggle_decomp (pre : List Task) (t : Task) (post : List Task)
    (i : Nat) (hpre : ∀ u ∈ pre, u.id ≠ i) (ht : t.id = i) :
    handleToggleComplete (pre ++ t :: post) i =
      (true, pre ++ { t with completed := !t.completed } :: post) := by
  induction pre with
  | nil => simp [handleToggleComplete, ht]
  | cons u us ih =>
    have hu : u.id ≠ i := hpre u (by simp)
    have ih' := ih (fun v hv => hpre v (by simp [hv]))
    simp only [List.cons_append]
    unfold handleToggleComplete
    rw [if_neg hu, ih']

/-- Toggling the same id twice restores the collection exactly. -/
lemma toggle_twice (tasks : List Task) (i : Nat) :
    (handleToggleComplete (handleToggleComplete tasks i).2 i).2 = tasks := by
  induction tasks with
  | nil => rfl
  | cons t ts ih =>
    by_cases h : t.id = i
    · obtain ⟨tid, ttext, tc, tca⟩ := t
      simp only at h
      subst h
      simp [handleToggleComplete, Bool.not_not]
    · simp [handleToggleComplete, h, ih]

/-- The two complementary filters of a list partition its length. -/
lemma length_filter_partition (tasks : List Task) :
    (tasks.filter (fun t => t.completed)).length
      + (tasks.filter (fun t => !t.completed)).length = tasks.length := by
  induction tasks with
  | nil => rfl
  | cons t ts ih =>
    by_cases h : t.completed <;> simp [List.filter_cons, h, ← ih] <;> omega

/-! ### Claim theorems C1 - C6 and C10 -/

/-- C1: `addTask` fails with `ValidationError("empty")` iff the input is
empty after trimming, fails with `ValidationError("too_long")` iff the
trimmed length exceeds 200, and any failure leaves the collection
unchanged. -/
theorem claim_C1_addTask_validation (tasks : List Task) (input : String)
    (now : Nat) (createdAt : String) :
    ((handleAddTask tasks input now createdAt).1 = .error .empty ↔
      jsTrim input = "") ∧
    ((handleAddTask tasks input now createdAt).1 = .error .tooLong ↔
      (jsTrim input).length > 200) ∧
    (∀ e, (handleAddTask tasks input now createdAt).1 = .error e →
      (handleAddTask tasks input now createdAt).2 = tasks) := by
  unfold handleAddTask
  by_cases h1 : jsTrim input = ""
  · simp [h1]
  · by_cases h2 : (jsTrim input).length > 200
    · simp [h1, h2]
    · simp [h1, h2, Nat.not_lt.mp h2]

/-- Witness for C1: `addTask` on the all-whitespace input `"   "` fails
with the "empty" error and leaves the (empty) collection unchanged. -/
theorem claim_C1_addTask_validation_witness :
    (handleAddTask [] "   " 17 "2024-01-01").1 = .error .empty ∧
    (handleAddTask [] "   " 17 "2024-01-01").2 = [] := by
  have h := claim_C1_addTask_validation [] "   " 17 "2024-01-01"
  have he : (handleAddTask [] "   " 17 "2024-01-01").1 = .error .empty :=
    h.1.mpr (by decide)
  exact ⟨he, h.2.2 .empty he⟩

/-- C2: on any valid input (nonempty after trimming, trimmed length at
most 200) `addTask` succeeds, prepends the new task (with `completed =
false` and the trimmed text) to the unchanged previous tasks, grows the
collection by exactly one, and the new task is first in the "all" view. -/
theorem claim_C2_addTask_success (tasks : List Task) (input : String)
    (now : Nat) (createdAt : String) (h1 : jsTrim input ≠ "")
    (h2 : (jsTrim input).length ≤ 200) :
    handleAddTask tasks input now createdAt =
      (.ok ⟨now, jsTrim input, false, createdAt⟩,
        ⟨now, jsTrim input, false, createdAt⟩ :: tasks) ∧
    ((handleAddTask tasks input now createdAt).2).length
      = tasks.length + 1 ∧
    getFilteredTasks (handleAddTask tasks input now createdAt).2 "all"
      = ⟨now, jsTrim input, false, createdAt⟩ :: tasks := by
  have h2' : ¬ (jsTrim input).length > 200 := by omega
  unfold handleAddTask getFilteredTasks
  simp [h1, h2']

/-- Witness for C2: adding `"  buy milk "` to a one-task collection. -/
theorem claim_C2_addTask_success_witness :
    handleAddTask [⟨1, "a", true, "s"⟩] "  buy milk " 2 "s2" =
      (.ok ⟨2, "buy milk", false, "s2"⟩,
        [⟨2, "buy milk", false, "s2"⟩, ⟨1, "a", true, "s"⟩]) ∧
    ((handleAddTask [⟨1, "a", true, "s"⟩] "  buy milk " 2 "s2").2).length
      = 2 := by
  have h := claim_C2_addTask_success [⟨1, "a", true, "s"⟩] "  buy milk "
    2 "s2" (by decide) (by decide)
  have ht : jsTrim "  buy milk " = "buy milk" := by decide
  refine ⟨?_, ?_⟩
  · rw [h.1, ht]
  · rw [h.2.1]; rfl

/-- C3 counterexample: on a collection whose single task is pending,
the confirmed clear-completed handler removes zero tasks yet still calls
`saveTasks()` — the source (line 129) saves unconditionally, so the
claim's "no persistence write when zero tasks are completed" is false. -/
theorem claim_C3_counterexample :
    ([(⟨1, "a", false, "s"⟩ : Task)].length
      - (handleClearCompleted [⟨1, "a", false, "s"⟩]).1.length = 0) ∧
    (handleClearCompleted [⟨1, "a", false, "s"⟩]).2 = true := by
  decide

/-- C3 (amended): `clearCompleted` removes exactly the completed tasks,
keeps the remaining tasks in their original relative order, the number
removed equals the count of completed tasks, and persistence is triggered
unconditionally — also when zero tasks were removed. -/
theorem claim_C3_clearCompleted (tasks : List Task) :
    (handleClearCompleted tasks).1
      = tasks.filter (fun t => !t.completed) ∧
    List.Sublist (handleClearCompleted tasks).1 tasks ∧
    (∀ t, t ∈ (handleClearCompleted tasks).1 ↔
      t ∈ tasks ∧ t.completed = false) ∧
    tasks.length - (handleClearCompleted tasks).1.length
      = (tasks.filter (fun t => t.completed)).length ∧
    (handleClearCompleted tasks).2 = true := by
  refine ⟨rfl, List.filter_sublist tasks, fun t => ?_, ?_, rfl⟩
  · simp [handleClearCompleted]
  · have h := length_filter_partition tasks
    have h2 := List.length_filter_le (fun t => t.completed) tasks
    simp only [handleClearCompleted]
    omega

/-- Witness for C3 (amended): the five-task collection of §8 with two
completed tasks: both are removed, three pending tasks survive in order,
and the handler reports a persistence write. -/
theorem claim_C3_clearCompleted_witness :
    (handleClearCompleted
        [⟨1, "a", false, "s"⟩, ⟨2, "b", true, "s"⟩, ⟨3, "c", false, "s"⟩,
         ⟨4, "d", true, "s"⟩, ⟨5, "e", false, "s"⟩]).1
      = [⟨1, "a", false, "s"⟩, ⟨3, "c", false, "s"⟩, ⟨5, "e", false, "s"⟩]
    ∧ (⟨2, "b", true, "s"⟩ : Task) ∈
        ([⟨1, "a", false, "s"⟩, ⟨2, "b", true, "s"⟩, ⟨3, "c", false, "s"⟩,
          ⟨4, "d", true, "s"⟩, ⟨5, "e", false, "s"⟩] : List Task)
      ∧ ¬ ((⟨2, "b", true, "s"⟩ : Task).completed = false) := by
  have h := claim_C3_clearCompleted
    [⟨1, "a", false, "s"⟩, ⟨2, "b", true, "s"⟩, ⟨3, "c", false, "s"⟩,
     ⟨4, "d", true, "s"⟩, ⟨5, "e", false, "s"⟩]
  refine ⟨by rw [h.1]; decide, by decide, ?_⟩
  intro hc
  exact absurd ((h.2.2.1 ⟨2, "b", true, "s"⟩).mpr ⟨by decide, hc⟩)
    (by rw [h.1]; decide)

/-- C4: toggling an absent id returns `false` and changes nothing;
toggling a present id returns `true` and flips exactly that (first
matching) task's `completed` flag, changing nothing else; toggling the
same id twice restores the collection exactly. -/
theorem claim_C4_toggleComplete (tasks : List Task) (i : Nat) :
    (i ∉ tasks.map Task.id →
      handleToggleComplete tasks i = (false, tasks)) ∧
    (i ∈ tasks.map Task.id → (handleToggleComplete tasks i).1 = true) ∧
    (∀ pre t post, tasks = pre ++ t :: post →
      (∀ u ∈ pre, u.id ≠ i) → t.id = i →
      handleToggleComplete tasks i =
        (true, pre ++ { t with completed := !t.completed } :: post)) ∧
    (handleToggleComplete (handleToggleComplete tasks i).2 i).2 = tasks :=
  ⟨toggle_of_not_mem tasks i, toggle_mem_fst tasks i,
   fun pre t post he hpre ht => he ▸ toggle_decomp pre t post i hpre ht,
   toggle_twice tasks i⟩

/-- Witness for C4 on a two-task collection: id 9 is absent (no-op,
`false`); id 2 is present (its flag flips from `true` to `false`, the
other task untouched, result `true`). -/
theorem claim_C4_toggleComplete_witness :
    handleToggleComplete
        [⟨1, "a", false, "s"⟩, ⟨2, "b", true, "s"⟩] 9
      = (false, [⟨1, "a", false, "s"⟩, ⟨2, "b", true, "s"⟩]) ∧
    handleToggleComplete
        [⟨1, "a", false, "s"⟩, ⟨2, "b", true, "s"⟩] 2
      = (true, [⟨1, "a", false, "s"⟩, ⟨2, "b", false, "s"⟩]) := by
  constructor
  · exact (claim_C4_toggleComplete
      [⟨1, "a", false, "s"⟩, ⟨2, "b", true, "s"⟩] 9).1 (by decide)
  · have h := (claim_C4_toggleComplete
      [⟨1, "a", false, "s"⟩, ⟨2, "b", true, "s"⟩] 2).2.2.1
      [⟨1, "a", false, "s"⟩] ⟨2, "b", true, "s"⟩ [] rfl
      (by decide) (by decide)
    simpa using h

/-- C5: the "all" filter returns the collection itself; "completed" and
"pending" return exactly the matching tasks as an order-preserving
sublist; every other filter string behaves like "all"; and the operation
is a pure projection (for every filter the result is a sublist of the
untouched input collection). -/
theorem claim_C5_getFilteredTasks (tasks : List Task) (f : String) :
    getFilteredTasks tasks "all" = tasks ∧
    getFilteredTasks tasks "completed"
      = tasks.filter (fun t => t.completed) ∧
    getFilteredTasks tasks "pending"
      = tasks.filter (fun t => !t.completed) ∧
    (∀ t, t ∈ getFilteredTasks tasks "completed" ↔
      t ∈ tasks ∧ t.completed = true) ∧
    (∀ t, t ∈ getFilteredTasks tasks "pending" ↔
      t ∈ tasks ∧ t.completed = false) ∧
    List.Sublist (getFilteredTasks tasks f) tasks ∧
    (f ≠ "completed" → f ≠ "pending" → getFilteredTasks tasks f = tasks)
    := by
  refine ⟨by simp [getFilteredTasks], by simp [getFilteredTasks],
    by simp [getFilteredTasks], fun t => by simp [getFilteredTasks],
    fun t => by simp [getFilteredTasks], ?_, fun h1 h2 => by
      simp [getFilteredTasks, h1, h2]⟩
  unfold getFilteredTasks
  by_cases h1 : f = "completed"
  · simp [h1, List.filter_sublist]
  · by_cases h2 : f = "pending"
    · simp [h1, h2, List.filter_sublist]
    · simp [h1, h2]

/-- Witness for C5: the defensive default on the unrecognized filter
string `"bogus"`. -/
theorem claim_C5_getFilteredTasks_witness :
    getFilteredTasks [⟨1, "a", true, "s"⟩] "bogus"
      = [⟨1, "a", true, "s"⟩] :=
  (claim_C5_getFilteredTasks [⟨1, "a", true, "s"⟩] "bogus").2.2.2.2.2.2
    (by decide) (by decide)

/-- C6: `calculateStats` returns the collection size as `total`, the
number of completed tasks as `completed`, their difference as
`remaining`, and `total = completed + remaining` always holds (all three
are `Nat`, hence nonnegative). -/
theorem claim_C6_calculateStats (tasks : List Task) :
    (calculateStats tasks).total = tasks.length ∧
    (calculateStats tasks).completed
      = (tasks.filter (fun t => t.completed)).length ∧
    (calculateStats tasks).remaining
      = tasks.length - (tasks.filter (fun t => t.completed)).length ∧
    (calculateStats tasks).total
      = (calculateStats tasks).completed
        + (calculateStats tasks).remaining := by
  refine ⟨rfl, rfl, rfl, ?_⟩
  have h := List.length_filter_le (fun t => t.completed) tasks
  simp only [calculateStats]
  omega

/-- C10: `deleteTask` removes every task carrying the target id (a task
survives iff its id differs), while `handleToggleComplete` flips only the
first task carrying the id and returns all later duplicates unchanged. -/
theorem claim_C10_duplicate_ids (tasks : List Task) (i : Nat) :
    (∀ t ∈ handleDeleteTask tasks i, t.id ≠ i) ∧
    (∀ t, t ∈ handleDeleteTask tasks i ↔ t ∈ tasks ∧ t.id ≠ i) ∧
    (∀ pre t post, tasks = pre ++ t :: post →
      (∀ u ∈ pre, u.id ≠ i) → t.id = i →
      (handleToggleComplete tasks i).2 =
        pre ++ { t with completed := !t.completed } :: post) := by
  refine ⟨fun t ht => ?_, fun t => ?_, fun pre t post he hpre ht => ?_⟩
  · exact of_decide_eq_true (List.mem_filter.mp ht).2
  · simp [handleDeleteTask]
  · rw [he, toggle_decomp pre t post i hpre ht]

/-- Witness for C10: two tasks share id 5 (a same-instant collision);
`deleteTask 5` removes both, while toggling 5 flips only the first and
leaves the second (still pending) in place. -/
theorem claim_C10_duplicate_ids_witness :
    handleDeleteTask [⟨5, "a", false, "s"⟩, ⟨5, "b", false, "s"⟩] 5
      = [] ∧
    (handleToggleComplete
        [⟨5, "a", false, "s"⟩, ⟨5, "b", false, "s"⟩] 5).2
      = [⟨5, "a", true, "s"⟩, ⟨5, "b", false, "s"⟩] := by
  have h := claim_C10_duplicate_ids
    [⟨5, "a", false, "s"⟩, ⟨5, "b", false, "s"⟩] 5
  refine ⟨by decide, ?_⟩
  have h3 := h.2.2 [] ⟨5, "a", false, "s"⟩ [⟨5, "b", false, "s"⟩]
    rfl (by decide) (by decide)
  simpa using h3

/-! ### Helper lemmas for id uniqueness (C8) and theme writes (C9) -/

/-- Toggling never changes the ids of the collection. -/
lemma toggle_map_id (tasks : List Task) (i : Nat) :
    ((handleToggleComplete tasks i).2).map Task.id = tasks.map Task.id := by
  induction tasks with
  | nil => rfl
  | cons t ts ih =>
    by_cases h : t.id = i
    · simp [handleToggleComplete, h]
    · simp [handleToggleComplete, h, ih]

lemma addTimes_add (input : String) (now : Nat) (createdAt : String)
    (rest : List Op) :
    addTimes (.add input now createdAt :: rest) = now :: addTimes rest :=
  rfl

lemma addTimes_toggle (i : Nat) (rest : List Op) :
    addTimes (.toggle i :: rest) = addTimes rest := rfl

lemma addTimes_delete (i : Nat) (rest : List Op) :
    addTimes (.delete i :: rest) = addTimes rest := rfl

lemma addTimes_clear (rest : List Op) :
    addTimes (.clear :: rest) = addTimes rest := rfl

/-- Main invariant for C8: if the current ids together with the pending
`Date.now()` values of the remaining operations contain no duplicate, the
final collection has pairwise distinct ids. -/
lemma runOps_aux (ops : List Op) :
    ∀ tasks : List Task,
      (tasks.map Task.id ++ addTimes ops).Nodup →
      ((ops.foldl applyOp tasks).map Task.id).Nodup := by
  induction ops with
  | nil =>
    intro tasks h
    simpa using h.of_append_left
  | cons op rest ih =>
    intro tasks h
    simp only [List.foldl_cons]
    apply ih
    cases op with
    | add input now createdAt =>
      rw [addTimes_add] at h
      by_cases h1 : jsTrim input = ""
      · have he : applyOp tasks (.add input now createdAt) = tasks := by
          simp [applyOp, handleAddTask, h1]
        rw [he]
        exact List.Nodup.sublist
          ((List.sublist_cons_self now (addTimes rest)).append_left
            (tasks.map Task.id)) h
      · by_cases h2 : (jsTrim input).length > 200
        · have he : applyOp tasks (.add input now createdAt) = tasks := by
            simp [applyOp, handleAddTask, h1, h2]
          rw [he]
          exact List.Nodup.sublist
            ((List.sublist_cons_self now (addTimes rest)).append_left
              (tasks.map Task.id)) h
        · have he : applyOp tasks (.add input now createdAt) =
              ⟨now, jsTrim input, false, createdAt⟩ :: tasks := by
            simp [applyOp, handleAddTask, h1, h2]
          rw [he]
          simpa using List.perm_middle.nodup h
    | toggle taskId =>
      rw [addTimes_toggle] at h
      have he : (applyOp tasks (.toggle taskId)).map Task.id
          = tasks.map Task.id := toggle_map_id tasks taskId
      rw [show applyOp tasks (.toggle taskId)
            = (handleToggleComplete tasks taskId).2 from rfl] at he ⊢
      rw [← he] at h
      exact h
    | delete taskId =>
      rw [addTimes_delete] at h
      refine List.Nodup.sublist ?_ h
      exact ((List.filter_sublist tasks).map Task.id).append_right _
    | clear =>
      rw [addTimes_clear] at h
      refine List.Nodup.sublist ?_ h
      exact ((List.filter_sublist tasks).map Task.id).append_right _

/-- Each user toggle writes the theme key exactly once. -/
lemma runToggles_length (n : Nat) :
    ∀ s : ThemeState, ((runToggles s n).2).length = n := by
  induction n with
  | zero => intro s; rfl
  | succ n ih =>
    intro s
    by_cases h : s.darkClass <;>
      simp [runToggles, handleDarkModeToggle, h, enableDarkMode,
        disableDarkMode, ih]

/-- Startup writes the theme key exactly once. -/
lemma initDarkMode_writes (prefersDark : Bool) (s : ThemeState) :
    ((initDarkMode prefersDark s).2).length = 1 := by
  by_cases h : (s.storedTheme == some "dark")
      || (strFalsy s.storedTheme && prefersDark) <;>
    simp [initDarkMode, h, enableDarkMode, disableDarkMode]

/-! ### Claim theorems C8 and C9 -/

/-- C8 counterexample: two `addTask` calls within the same clock instant
(`Date.now() = 5` twice) produce two tasks with the same id, so the
reachable-collection id-uniqueness claim is false on the code. -/
theorem claim_C8_counterexample :
    ¬ ((runOps [.add "a" 5 "s", .add "b" 5 "s"]).map Task.id).Nodup := by
  decide

/-- C8 (amended): in every collection reachable by a sequence of
operations from the empty collection, all ids are unique — provided the
`Date.now()` values consumed by the `add` operations are pairwise
distinct.  When two adds occur within the same clock instant the ids
collide (see the counterexample). -/
theorem claim_C8_unique_ids (ops : List Op)
    (h : (addTimes ops).Nodup) :
    ((runOps ops).map Task.id).Nodup :=
  runOps_aux ops [] (by simpa using h)

/-- Witness for C8: a five-operation session whose two adds happen at
distinct clock values has pairwise distinct ids throughout. -/
theorem claim_C8_unique_ids_witness :
    (addTimes [Op.add "a" 1 "s", Op.toggle 1, Op.add "b" 2 "s",
      Op.clear, Op.delete 1]).Nodup ∧
    ((runOps [Op.add "a" 1 "s", Op.toggle 1, Op.add "b" 2 "s",
      Op.clear, Op.delete 1]).map Task.id).Nodup :=
  ⟨by decide,
   claim_C8_unique_ids [Op.add "a" 1 "s", Op.toggle 1, Op.add "b" 2 "s",
     Op.clear, Op.delete 1] (by decide)⟩

/-- C9 counterexample: a session with zero theme-toggle actions still
writes the `"theme"` key once — `initDarkMode` calls `enableDarkMode` or
`disableDarkMode`, each of which performs `localStorage.setItem("theme",
...)` (lines 326 and 336) — so "a write occurs iff the user toggles" is
false on the code: at startup the key is written, not only read. -/
theorem claim_C9_counterexample :
    (runThemeSession false ⟨none, false⟩ 0).2 = ["light"] ∧
    (runThemeSession false ⟨none, false⟩ 0).2 ≠ [] := by
  decide

/-- C9 (amended): the `"theme"` key is written exactly once at startup
and exactly once per user toggle (a session with `n` toggles performs
`n + 1` writes), and when no theme entry is stored the startup write
resolves by the system color-scheme preference: `"dark"` iff the system
prefers dark. -/
theorem claim_C9_theme_writes (prefersDark : Bool) (s0 : ThemeState)
    (n : Nat) :
    ((runThemeSession prefersDark s0 n).2).length = n + 1 ∧
    (∀ dc : Bool,
      ((runThemeSession prefersDark ⟨none, dc⟩ n).2).head? =
        some (if prefersDark then "dark" else "light")) := by
  constructor
  · have h1 := initDarkMode_writes prefersDark s0
    have h2 := runToggles_length n (initDarkMode prefersDark s0).1
    simp only [runThemeSession, List.length_append]
    omega
  · intro dc
    cases prefersDark <;>
      simp [runThemeSession, initDarkMode, strFalsy, enableDarkMode,
        disableDarkMode]

/-! ### Persistence: `loadTasks` / `saveTasks` (src/script.js lines 288-305)

The source stores the collection as `JSON.stringify(this.tasks)` under the
`localStorage` key `"tasks"` and restores it with `JSON.parse`.  The two
platform built-ins are modelled by an explicit character-level codec for
the exact JSON shape `JSON.stringify` produces for a task array —
`[\x7b"id":<number>,"text":<string>,"completed":<bool>,"createdAt":<string>\x7d,...]`
with `"` and `\\` escaped inside strings (the control-character escapes
`JSON.stringify` would additionally emit are omitted: they affect neither
the round trip nor failure behaviour).  The decoder is typed: it fails —
and `loadTasks` then yields the empty collection, as the `catch` branch
does for data `JSON.parse` cannot parse — also on well-formed JSON that is
not an array of task objects, which is the natural shallow embedding of
the untyped parse result into `List Task`. -/

def escapeChar (c : Char) : List Char :=
  if c = '"' then ['\\', '"']
  else if c = '\\' then ['\\', '\\']
  else [c]

def encodeBody : List Char → List Char
  | [] => []
  | c :: cs => escapeChar c ++ encodeBody cs

def parseStringBody : List Char → Option (List Char × List Char)
  | [] => none
  | c :: rest =>
    if c = '"' then some ([], rest)
    else if c = '\\' then
      match rest with
      | [] => none
      | e :: rest2 =>
        if e = '"' ∨ e = '\\' then
          (parseStringBody rest2).map (fun p => (e :: p.1, p.2))
        else none
    else
      (parseStringBody rest).map (fun p => (c :: p.1, p.2))

lemma parseStringBody_encode (s : List Char) :
    ∀ rest, parseStringBody (encodeBody s ++ '"' :: rest) = some (s, rest) := by
  induction s with
  | nil => intro rest; simp [encodeBody, parseStringBody.eq_def]
  | cons c cs ih =>
    intro rest
    by_cases h1 : c = '"'
    · subst h1
      rw [show encodeBody ('"' :: cs) ++ '"' :: rest
          = '\\' :: '"' :: (encodeBody cs ++ '"' :: rest) by
        simp [encodeBody, escapeChar]]
      rw [parseStringBody.eq_def]
      simp [ih]
    · by_cases h2 : c = '\\'
      · subst h2
        rw [show encodeBody ('\\' :: cs) ++ '"' :: rest
            = '\\' :: '\\' :: (encodeBody cs ++ '"' :: rest) by
          simp [encodeBody, escapeChar]]
        rw [parseStringBody.eq_def]
        simp [ih]
      · rw [show encodeBody (c :: cs) ++ '"' :: rest
            = c :: (encodeBody cs ++ '"' :: rest) by
          simp [encodeBody, escapeChar, h1, h2]]
        rw [parseStringBody.eq_def]
        simp [h1, h2, ih]

def charVal (c : Char) : Nat := c.toNat - 48

def encodeNat (n : Nat) : List Char :=
  if n = 0 then ['0']
  else ((Nat.digits 10 n).map Nat.digitChar).reverse

def parseNatAux : List Char → Nat → Nat × List Char
  | [], acc => (acc, [])
  | c :: rest, acc =>
    if c.isDigit then parseNatAux rest (acc * 10 + charVal c)
    else (acc, c :: rest)

def parseNum (l : List Char) : Option (Nat × List Char) :=
  match l with
  | c :: _ => if c.isDigit then some (parseNatAux l 0) else none
  | [] => none

lemma digitChar_isDigit (d : Nat) (h : d < 10) :
    (Nat.digitChar d).isDigit = true := by
  interval_cases d <;> decide

lemma charVal_digitChar (d : Nat) (h : d < 10) :
    charVal (Nat.digitChar d) = d := by
  interval_cases d <;> decide

def headNotDigit : List Char → Bool
  | [] => true
  | c :: _ => !c.isDigit

lemma parseNatAux_stop (l : List Char) (acc : Nat)
    (h : headNotDigit l = true) : parseNatAux l acc = (acc, l) := by
  cases l with
  | nil => rfl
  | cons c cs =>
    rw [parseNatAux.eq_def]
    simp only [headNotDigit, Bool.not_eq_true'] at h
    simp [h]

lemma parseNatAux_run (l : List Nat) :
    ∀ (acc : Nat) (rest : List Char), (∀ d ∈ l, d < 10) →
    headNotDigit rest = true →
    parseNatAux (l.map Nat.digitChar ++ rest) acc
      = (l.foldl (fun a d => a * 10 + d) acc, rest) := by
  induction l with
  | nil => intro acc rest _ hr; simpa using parseNatAux_stop rest acc hr
  | cons d ds ih =>
    intro acc rest hd hr
    have h10 : d < 10 := hd d (by simp)
    rw [List.map_cons, List.cons_append, parseNatAux.eq_def]
    simp only [digitChar_isDigit d h10, if_pos, charVal_digitChar d h10]
    rw [ih (acc * 10 + d) rest (fun e he => hd e (by simp [he])) hr]
    rfl

lemma foldl_reverse_digits (l : List Nat) :
    ∀ acc : Nat, l.reverse.foldl (fun a d => a * 10 + d) acc
      = acc * 10 ^ l.length + Nat.ofDigits 10 l := by
  induction l with
  | nil => intro acc; simp
  | cons d ds ih =>
    intro acc
    rw [List.reverse_cons, List.foldl_append, ih acc]
    simp [Nat.ofDigits_cons, pow_succ]
    ring

lemma parseNum_encode (n : Nat) (rest : List Char)
    (hr : headNotDigit rest = true) :
    parseNum (encodeNat n ++ rest) = some (n, rest) := by
  by_cases h0 : n = 0
  · subst h0
    rw [show encodeNat 0 ++ rest = '0' :: rest from rfl]
    have h1 : parseNum ('0' :: rest) = some (parseNatAux ('0' :: rest) 0) := by
      rw [parseNum.eq_def]; simp
    have h2 : parseNatAux ('0' :: rest) 0 = parseNatAux rest 0 := by
      rw [parseNatAux.eq_def]; simp [charVal]
    rw [h1, h2, parseNatAux_stop rest 0 hr]
  · have hne : Nat.digits 10 n ≠ [] := Nat.digits_ne_nil_iff_ne_zero.mpr h0
    have hlt : ∀ d ∈ (Nat.digits 10 n).reverse, d < 10 := by
      intro d hdm
      exact Nat.digits_lt_base (by norm_num) (List.mem_reverse.mp hdm)
    obtain ⟨e, es, hes⟩ : ∃ e es, (Nat.digits 10 n).reverse = e :: es := by
      rcases hrev : (Nat.digits 10 n).reverse with _ | ⟨e, es⟩
      · exact absurd (by simpa using congrArg List.reverse hrev) hne
      · exact ⟨e, es, rfl⟩
    have he10 : e < 10 := hlt e (by rw [hes]; simp)
    have henc : encodeNat n = (e :: es).map Nat.digitChar := by
      rw [encodeNat, if_neg h0, ← List.map_reverse, hes]
    rw [henc]
    have hrun := parseNatAux_run (e :: es) 0 rest (hes ▸ hlt) hr
    rw [List.map_cons, List.cons_append]
    have h1 : parseNum (e.digitChar :: (List.map Nat.digitChar es ++ rest))
        = some (parseNatAux
            (e.digitChar :: (List.map Nat.digitChar es ++ rest)) 0) := by
      rw [parseNum.eq_def]; simp [digitChar_isDigit e he10]
    rw [h1, ← List.cons_append, ← List.map_cons, hrun]
    have hval : (e :: es).foldl (fun a d => a * 10 + d) 0 = n := by
      rw [← hes, foldl_reverse_digits]
      simpa using Nat.ofDigits_digits 10 n
    rw [hval]

def expects : List Char → List Char → Option (List Char)
  | [], l => some l
  | _ :: _, [] => none
  | p :: ps, c :: cs => if c = p then expects ps cs else none

lemma expects_self (pat : List Char) :
    ∀ l, expects pat (pat ++ l) = some l := by
  induction pat with
  | nil => intro l; rfl
  | cons p ps ih => intro l; simp [expects, ih]

def encodeBool (b : Bool) : List Char :=
  if b then ['t', 'r', 'u', 'e'] else ['f', 'a', 'l', 's', 'e']

def parseBool (l : List Char) : Option (Bool × List Char) :=
  match expects ['t', 'r', 'u', 'e'] l with
  | some r => some (true, r)
  | none =>
    match expects ['f', 'a', 'l', 's', 'e'] l with
    | some r => some (false, r)
    | none => none

lemma parseBool_encode (b : Bool) (rest : List Char) :
    parseBool (encodeBool b ++ rest) = some (b, rest) := by
  cases b <;> simp [encodeBool, parseBool, expects, expects_self]

def keyId : List Char := ['\x7b', '"', 'i', 'd', '"', ':']
def keyText : List Char := [',', '"', 't', 'e', 'x', 't', '"', ':', '"']
def keyCompleted : List Char :=
  [',', '"', 'c', 'o', 'm', 'p', 'l', 'e', 't', 'e', 'd', '"', ':']
def keyCreatedAt : List Char :=
  [',', '"', 'c', 'r', 'e', 'a', 't', 'e', 'd', 'A', 't', '"', ':', '"']

def encodeTask (t : Task) : List Char :=
  keyId ++ encodeNat t.id ++ keyText ++ encodeBody t.text.data ++ ['"']
    ++ keyCompleted ++ encodeBool t.completed
    ++ keyCreatedAt ++ encodeBody t.createdAt.data ++ ['"', '\x7d']

def parseTask (l : List Char) : Option (Task × List Char) :=
  (expects keyId l).bind fun r1 =>
  (parseNum r1).bind fun p =>
  (expects keyText p.2).bind fun r3 =>
  (parseStringBody r3).bind fun q =>
  (expects keyCompleted q.2).bind fun r5 =>
  (parseBool r5).bind fun pb =>
  (expects keyCreatedAt pb.2).bind fun r7 =>
  (parseStringBody r7).bind fun pc =>
  (expects ['\x7d'] pc.2).map fun r9 =>
    ({ id := p.1, text := ⟨q.1⟩, completed := pb.1, createdAt := ⟨pc.1⟩ }, r9)

lemma parseNum_encode_comma (n : Nat) (r : List Char) :
    parseNum (encodeNat n ++ (',' :: r)) = some (n, ',' :: r) :=
  parseNum_encode n (',' :: r) rfl

lemma expects_keyText_cons (r : List Char) :
    expects keyText
      (',' :: '"' :: 't' :: 'e' :: 'x' :: 't' :: '"' :: ':' :: '"' :: r)
      = some r := by
  simpa [keyText] using expects_self keyText r

lemma expects_closeBrace_cons (r : List Char) :
    expects ['\x7d'] ('\x7d' :: r) = some r := by
  simpa using expects_self ['\x7d'] r

lemma parseTask_encode (t : Task) (rest : List Char) :
    parseTask (encodeTask t ++ rest) = some (t, rest) := by
  have hsplit : encodeTask t ++ rest
      = keyId ++ (encodeNat t.id
        ++ (',' :: ('"' :: 't' :: 'e' :: 'x' :: 't' :: '"' :: ':' :: '"' ::
        (encodeBody t.text.data ++ ('"' :: (keyCompleted
        ++ (encodeBool t.completed ++ (keyCreatedAt
        ++ (encodeBody t.createdAt.data ++ ('"' :: '\x7d' :: rest)))))))))) := by
    simp [encodeTask, keyText, List.append_assoc]
  rw [hsplit]
  simp only [parseTask, expects_self, Option.some_bind, parseNum_encode_comma,
    expects_keyText_cons, parseStringBody_encode, parseBool_encode,
    expects_closeBrace_cons, Option.map_some']

def encodeTasksTail : List Task → List Char
  | [] => []
  | t :: ts => ',' :: (encodeTask t ++ encodeTasksTail ts)

def encodeTasks : List Task → List Char
  | [] => ['[', ']']
  | t :: ts => '[' :: (encodeTask t ++ (encodeTasksTail ts ++ [']']))

def parseTasksAux : Nat → List Char → Option (List Task × List Char)
  | 0, _ => none
  | fuel + 1, l =>
    (parseTask l).bind fun p =>
    match p.2 with
    | [] => none
    | c :: r2 =>
      if c = ',' then
        (parseTasksAux fuel r2).map fun q => (p.1 :: q.1, q.2)
      else if c = ']' then some ([p.1], r2)
      else none

def parseTasks (l : List Char) : Option (List Task) :=
  match l with
  | [] => none
  | c :: r =>
    if c = '[' then
      if r = [']'] then some []
      else
        (parseTasksAux (r.length + 1) r).bind fun p =>
        if p.2 = [] then some p.1 else none
    else none

lemma parseTasksAux_encode (ts : List Task) :
    ∀ (t : Task) (fuel : Nat) (rest : List Char), ts.length + 1 ≤ fuel →
    parseTasksAux fuel
        (encodeTask t ++ (encodeTasksTail ts ++ (']' :: rest)))
      = some (t :: ts, rest) := by
  induction ts with
  | nil =>
    intro t fuel rest hf
    obtain ⟨f, rfl⟩ : ∃ f, fuel = f + 1 := ⟨fuel - 1, by omega⟩
    rw [show encodeTasksTail [] ++ (']' :: rest) = ']' :: rest from rfl]
    rw [parseTasksAux.eq_def]
    simp [parseTask_encode]
  | cons u us ih =>
    intro t fuel rest hf
    obtain ⟨f, rfl⟩ : ∃ f, fuel = f + 1 := ⟨fuel - 1, by omega⟩
    have hsh : encodeTask t ++ (encodeTasksTail (u :: us) ++ (']' :: rest))
        = encodeTask t ++ (',' ::
            (encodeTask u ++ (encodeTasksTail us ++ (']' :: rest)))) := by
      simp [encodeTasksTail, List.append_assoc]
    rw [hsh, parseTasksAux.eq_def]
    simp only [parseTask_encode, Option.some_bind]
    have ihr := ih u f rest (by simpa using Nat.succ_le_succ_iff.mp hf)
    simp [ihr]

lemma length_le_encodeTasksTail (ts : List Task) :
    ts.length ≤ (encodeTasksTail ts).length := by
  induction ts with
  | nil => simp [encodeTasksTail]
  | cons t us ih => simp [encodeTasksTail]; omega

lemma encodeTask_head (t : Task) :
    ∀ r, encodeTask t ++ r
      = '\x7b' :: ('"' :: 'i' :: 'd' :: '"' :: ':' ::
          (encodeNat t.id ++ keyText ++ encodeBody t.text.data ++ ['"']
            ++ keyCompleted ++ encodeBool t.completed
            ++ keyCreatedAt ++ encodeBody t.createdAt.data
            ++ ['"', '\x7d'] ++ r)) := by
  intro r
  simp [encodeTask, keyId, List.append_assoc]

lemma parseTasks_encode (ts : List Task) :
    parseTasks (encodeTasks ts) = some ts := by
  cases ts with
  | nil => rfl
  | cons t us =>
    rw [show encodeTasks (t :: us)
        = '[' :: (encodeTask t ++ (encodeTasksTail us ++ (']' :: []))) from rfl]
    rw [parseTasks.eq_def]
    simp only [if_pos rfl]
    have hne : encodeTask t ++ (encodeTasksTail us ++ (']' :: [])) ≠ [']'] := by
      rw [encodeTask_head]
      simp
    rw [if_neg hne]
    have hfuel : us.length + 1
        ≤ (encodeTask t ++ (encodeTasksTail us ++ (']' :: []))).length + 1 := by
      have h1 := length_le_encodeTasksTail us
      simp [List.length_append]
      omega
    rw [parseTasksAux_encode us t _ [] hfuel]
    simp

/-- Embedding of `saveTasks` (src/script.js lines 299-305): the value
written under the `"tasks"` key. -/
def saveTasks (tasks : List Task) : Option String :=
  some ⟨encodeTasks tasks⟩

/-- Embedding of `loadTasks` (src/script.js lines 288-296): a missing or
falsy entry yields `[]`, otherwise the stored string is parsed, any
failure being swallowed into `[]`. -/
def loadTasks (stored : Option String) : List Task :=
  match stored with
  | none => []
  | some s => if s = "" then [] else (parseTasks s.data).getD []

lemma encodeTasks_ne_nil (ts : List Task) : encodeTasks ts ≠ [] := by
  cases ts <;> simp [encodeTasks]

lemma loadTasks_saveTasks (ts : List Task) :
    loadTasks (saveTasks ts) = ts := by
  rw [saveTasks, loadTasks]
  rw [if_neg (by
    intro he
    exact absurd (congrArg String.data he)
      (by simpa using encodeTasks_ne_nil ts))]
  rw [show (String.mk (encodeTasks ts)).data = encodeTasks ts from rfl]
  rw [parseTasks_encode]
  rfl

/-- C7: saving any task collection and loading it back returns the same
collection, order and all field values preserved; loading returns the
empty collection when no entry is stored or when the stored data does not
parse. -/
theorem claim_C7_persistence_roundtrip :
    (∀ C : List Task, loadTasks (saveTasks C) = C) ∧
    loadTasks none = [] ∧
    (∀ s : String, parseTasks s.data = none → loadTasks (some s) = []) := by
  refine ⟨loadTasks_saveTasks, rfl, fun s hs => ?_⟩
  rw [loadTasks]
  by_cases h : s = ""
  · simp [h]
  · rw [if_neg h, hs]
    rfl

/-- Witness for C7: the corrupt stored string `"junk"` does not parse and
loads as the empty collection. -/
theorem claim_C7_persistence_roundtrip_witness :
    parseTasks "junk".data = none ∧ loadTasks (some "junk") = [] :=
  ⟨by decide, claim_C7_persistence_roundtrip.2.2 "junk" (by decide)⟩

end TaskManager
